import Mathlib

/-!
Verification of the BootCamp repository against its specification.

The repository consists of two teaching notebooks:

* a parallel-programming notebook with a sequential xkcd downloader
  (`download_xkcd`), a queue-based threaded downloader (`download_worker`,
  `DownloadThread`, `download_xkcd_threaded`) and several Monte Carlo area
  estimators (multiprocessing and message passing);
* a model-fitting notebook whose MCMC section defines `lnprior`, `lnlike`
  and `lnprob` and hands `lnprob` to an ensemble sampler.

This file embeds those programs shallowly in Lean.  The threaded downloader
is embedded as a small-step transition system over explicit configurations,
with one transition per atomic action of the Python code; the sequential
downloader and the numerical functions are embedded as pure functions over
lists and real numbers.
-/

/-! ## The threaded downloader: data model

The per-item behaviour of `download_worker` can end in three ways: the item
handler runs an HTTP request and either saves a file, prints a failure
message and continues, or raises an exception that escapes the worker.  The
transition system is parameterised by the outcome of processing each item.
-/

/-- Outcome of `process(item)` inside a worker: the handler returns normally,
returns normally after reporting a failure, or raises an exception. -/
inductive POutcome where
  | ok
  | report
  | raise
deriving DecidableEq, Repr

/-- Program counter of one worker thread through `DownloadThread.run` and
`download_worker`.  `outer` is the check of `self.running`; `inner` is the
check of `q.empty()`; `getting` means the worker passed the emptiness check
and is about to call `q.get()`; `got i` means `q.get()` returned item `i`
and `q.task_done()` has not run yet; `processing i` means `q.task_done()`
ran and the item is being downloaded; `terminated` means `run` observed
`running = False` and returned; `dead` means an exception escaped. -/
inductive WStatus where
  | outer
  | inner
  | getting
  | got (i : Int)
  | processing (i : Int)
  | terminated
  | dead
deriving DecidableEq, Repr

/-- One `DownloadThread`: its position in the code plus its `running` flag. -/
structure Worker where
  status : WStatus
  running : Bool
deriving DecidableEq, Repr

/-- Global configuration of `download_xkcd_threaded` after the queue has been
populated and the workers started, with `mainReturned` recording whether
`q.join()` has returned.  `unfinished` is the internal unfinished-task count
of the queue (incremented by `put`, decremented by `task_done`; `join`
returns when it reaches zero).  `claims` records every item delivered by
`q.get()`, in delivery order; `processed` records every item whose handler
ran to completion; `reported` records every printed failure message. -/
structure Config where
  queue : List Int
  unfinished : Nat
  workers : List Worker
  mainReturned : Bool
  claims : List Int
  processed : List Int
  reported : List Int
deriving DecidableEq, Repr

/-- Python `range(start, stop)` over machine integers, as a list. -/
def pyRange (start stop : Int) : List Int :=
  (List.range (stop - start).toNat).map (fun (k : Nat) => start + (k : Int))

/-- The state of `download_xkcd_threaded(nthreads, start, stop)` at the point
where the main thread blocks in `q.join()`: the queue holds
`range(start, stop)` in order, the unfinished-task count equals the number
of `put` calls, and `nthreads` freshly started workers sit at the top of
`DownloadThread.run` with `running = True`. -/
def download_xkcd_threaded (nthreads : Nat) (start stop : Int) : Config :=
  { queue := pyRange start stop
    unfinished := (pyRange start stop).length
    workers := List.replicate nthreads { status := WStatus.outer, running := true }
    mainReturned := false
    claims := []
    processed := []
    reported := [] }

/-- Small-step transition relation of the threaded downloader.  A worker is
selected nondeterministically by splitting the worker list; the main thread
step is `mainRet`.  Each constructor is one atomic action of the Python
code. -/
inductive Step (out : Int → POutcome) : Config → Config → Prop where
  | outerCont (c : Config) (pre post : List Worker)
      (hw : c.workers = pre ++ { status := WStatus.outer, running := true } :: post) :
      Step out c { c with workers := pre ++ { status := WStatus.inner, running := true } :: post }
  | outerStop (c : Config) (pre post : List Worker)
      (hw : c.workers = pre ++ { status := WStatus.outer, running := false } :: post) :
      Step out c { c with workers := pre ++ { status := WStatus.terminated, running := false } :: post }
  | innerEmpty (c : Config) (pre post : List Worker) (r : Bool)
      (hw : c.workers = pre ++ { status := WStatus.inner, running := r } :: post)
      (hq : c.queue = []) :
      Step out c { c with workers := pre ++ { status := WStatus.outer, running := r } :: post }
  | innerNonempty (c : Config) (pre post : List Worker) (r : Bool)
      (hw : c.workers = pre ++ { status := WStatus.inner, running := r } :: post)
      (hq : c.queue ≠ []) :
      Step out c { c with workers := pre ++ { status := WStatus.getting, running := r } :: post }
  | getOk (c : Config) (pre post : List Worker) (r : Bool) (i : Int) (rest : List Int)
      (hw : c.workers = pre ++ { status := WStatus.getting, running := r } :: post)
      (hq : c.queue = i :: rest) :
      Step out c { c with workers := pre ++ { status := WStatus.got i, running := r } :: post,
                          queue := rest, claims := c.claims ++ [i] }
  | taskDone (c : Config) (pre post : List Worker) (r : Bool) (i : Int)
      (hw : c.workers = pre ++ { status := WStatus.got i, running := r } :: post) :
      Step out c { c with workers := pre ++ { status := WStatus.processing i, running := r } :: post,
                          unfinished := c.unfinished - 1 }
  | procOk (c : Config) (pre post : List Worker) (r : Bool) (i : Int)
      (hw : c.workers = pre ++ { status := WStatus.processing i, running := r } :: post)
      (ho : out i = POutcome.ok) :
      Step out c { c with workers := pre ++ { status := WStatus.inner, running := r } :: post,
                          processed := c.processed ++ [i] }
  | procReport (c : Config) (pre post : List Worker) (r : Bool) (i : Int)
      (hw : c.workers = pre ++ { status := WStatus.processing i, running := r } :: post)
      (ho : out i = POutcome.report) :
      Step out c { c with workers := pre ++ { status := WStatus.inner, running := r } :: post,
                          processed := c.processed ++ [i], reported := c.reported ++ [i] }
  | procRaise (c : Config) (pre post : List Worker) (r : Bool) (i : Int)
      (hw : c.workers = pre ++ { status := WStatus.processing i, running := r } :: post)
      (ho : out i = POutcome.raise) :
      Step out c { c with workers := pre ++ { status := WStatus.dead, running := r } :: post }
  | mainRet (c : Config)
      (hm : c.mainReturned = false) (hu : c.unfinished = 0) :
      Step out c { c with mainReturned := true }

/-- Reachability of a configuration from a starting configuration. -/
def Reachable (out : Int → POutcome) (c₀ c : Config) : Prop :=
  Relation.ReflTransGen (Step out) c₀ c

/-- A configuration from which no step is possible. -/
def Stuck (out : Int → POutcome) (c : Config) : Prop :=
  ∀ c', ¬ Step out c c'

/-! ## Bookkeeping functions over configurations -/

/-- The item currently held by a worker: one item between `q.get()` and the
end of its processing, and nothing otherwise. -/
def Worker.hand (w : Worker) : List Int :=
  match w.status with
  | WStatus.got i => [i]
  | WStatus.processing i => [i]
  | _ => []

/-- Whether a worker sits between `q.get()` and `q.task_done()`. -/
def isGot (w : Worker) : Bool :=
  match w.status with
  | WStatus.got _ => true
  | _ => false

/-- Items currently held by some worker. -/
def hands : List Worker → List Int
  | [] => []
  | w :: ws => w.hand ++ hands ws

/-- Number of workers sitting between `q.get()` and `q.task_done()`. -/
def countGot (ws : List Worker) : Nat := ws.countP (fun w => isGot w)

theorem hands_append (l₁ l₂ : List Worker) : hands (l₁ ++ l₂) = hands l₁ ++ hands l₂ := by
  induction l₁ with
  | nil => rfl
  | cons w ws ih => simp [hands, ih]

theorem countGot_append (l₁ l₂ : List Worker) :
    countGot (l₁ ++ l₂) = countGot l₁ + countGot l₂ := by
  simp [countGot, List.countP_append]

theorem hands_replicate_outer (n : Nat) :
    hands (List.replicate n { status := WStatus.outer, running := true }) = [] := by
  induction n with
  | zero => rfl
  | succ m ih => simp [List.replicate_succ, hands, Worker.hand, ih]

theorem countGot_replicate_outer (n : Nat) :
    countGot (List.replicate n { status := WStatus.outer, running := true }) = 0 := by
  induction n with
  | zero => rfl
  | succ m ih => simp [List.replicate_succ, countGot, List.countP_cons, isGot, ih]

/-! ## The reachability invariant of the worker pool -/

/-- Invariant of every configuration reachable from
`download_xkcd_threaded nthreads start stop`, where `items` is the enqueued
list `range(start, stop)`:

* `claims_queue`: the delivered items followed by the still-queued items
  are exactly the enqueued items, in order (so delivery never duplicates or
  invents an item);
* `unfin`: the unfinished-task count of the queue equals the number of
  still-queued items plus the number of workers that have taken an item but
  not yet called `task_done`;
* `busy`: counting multiplicities, the completed items together with the
  items currently in some worker hand are contained in the delivered items;
* `ret`: once `q.join()` has returned, the unfinished-task count is zero;
* `alive`: every worker still has `running = True` (the program never calls
  `stop()`) and no worker has terminated. -/
structure PoolInv (items : List Int) (c : Config) : Prop where
  claims_queue : c.claims ++ c.queue = items
  unfin : c.unfinished = c.queue.length + countGot c.workers
  busy : ∀ j : Int, c.processed.count j + (hands c.workers).count j ≤ c.claims.count j
  ret : c.mainReturned = true → c.unfinished = 0
  alive : ∀ w ∈ c.workers, w.running = true ∧ w.status ≠ WStatus.terminated

theorem inv_init (nthreads : Nat) (start stop : Int) :
    PoolInv (pyRange start stop) (download_xkcd_threaded nthreads start stop) := by
  refine ⟨by simp [download_xkcd_threaded], ?_, ?_, ?_, ?_⟩
  · simp [download_xkcd_threaded, countGot_replicate_outer]
  · intro j
    simp [download_xkcd_threaded, hands_replicate_outer]
  · intro h
    simp [download_xkcd_threaded] at h
  · intro w hw
    have := List.eq_of_mem_replicate hw
    subst this
    exact ⟨rfl, by simp⟩

theorem countGot_split (pre post : List Worker) (w : Worker) :
    countGot (pre ++ w :: post) = countGot pre + (if isGot w then 1 else 0) + countGot post := by
  simp [countGot, List.countP_append, List.countP_cons]
  omega

theorem count_hands_split (pre post : List Worker) (w : Worker) (j : Int) :
    (hands (pre ++ w :: post)).count j
      = (hands pre).count j + w.hand.count j + (hands post).count j := by
  simp [hands_append, hands, List.count_append, Nat.add_assoc]

theorem alive_update {pre post : List Worker} {wOld wNew : Worker}
    (h : ∀ w ∈ pre ++ wOld :: post, w.running = true ∧ w.status ≠ WStatus.terminated)
    (hNew : wNew.running = true ∧ wNew.status ≠ WStatus.terminated) :
    ∀ w ∈ pre ++ wNew :: post, w.running = true ∧ w.status ≠ WStatus.terminated := by
  intro w hw
  simp only [List.mem_append, List.mem_cons] at hw
  rcases hw with h1 | h1 | h1
  · exact h w (by simp [h1])
  · subst h1; exact hNew
  · exact h w (by simp [h1])

theorem alive_old {pre post : List Worker} {wOld : Worker}
    (h : ∀ w ∈ pre ++ wOld :: post, w.running = true ∧ w.status ≠ WStatus.terminated) :
    wOld.running = true := (h wOld (by simp)).1

theorem poolInv_step {out : Int → POutcome} {items : List Int} {c c' : Config}
    (hinv : PoolInv items c) (hs : Step out c c') : PoolInv items c' := by
  obtain ⟨h1, h2, h3, h4, h5⟩ := hinv
  cases hs with
  | outerCont pre post hw =>
    rw [hw] at h2 h5
    refine ⟨h1, ?_, ?_, h4, ?_⟩
    · rw [countGot_split] at h2 ⊢
      simp [isGot] at h2 ⊢
      omega
    · intro j
      have h3j := h3 j
      rw [hw, count_hands_split] at h3j
      rw [count_hands_split]
      simp [Worker.hand] at h3j ⊢
      omega
    · exact alive_update h5 ⟨rfl, by simp⟩
  | outerStop pre post hw =>
    rw [hw] at h5
    exact absurd (alive_old h5) (by simp)
  | innerEmpty pre post r hw hq =>
    rw [hw] at h2 h5
    refine ⟨h1, ?_, ?_, h4, ?_⟩
    · rw [countGot_split] at h2 ⊢
      simp [isGot] at h2 ⊢
      omega
    · intro j
      have h3j := h3 j
      rw [hw, count_hands_split] at h3j
      rw [count_hands_split]
      simp [Worker.hand] at h3j ⊢
      omega
    · have hr := alive_old h5
      exact alive_update h5 ⟨hr, by simp⟩
  | innerNonempty pre post r hw hq =>
    rw [hw] at h2 h5
    refine ⟨h1, ?_, ?_, h4, ?_⟩
    · rw [countGot_split] at h2 ⊢
      simp [isGot] at h2 ⊢
      omega
    · intro j
      have h3j := h3 j
      rw [hw, count_hands_split] at h3j
      rw [count_hands_split]
      simp [Worker.hand] at h3j ⊢
      omega
    · have hr := alive_old h5
      exact alive_update h5 ⟨hr, by simp⟩
  | getOk pre post r i rest hw hq =>
    rw [hw] at h2 h5
    refine ⟨?_, ?_, ?_, h4, ?_⟩
    · show (c.claims ++ [i]) ++ rest = items
      rw [List.append_assoc]
      simpa [hq] using h1
    · show c.unfinished = rest.length + countGot (pre ++ _ :: post)
      rw [countGot_split] at h2 ⊢
      simp [isGot, hq] at h2 ⊢
      omega
    · intro j
      have h3j := h3 j
      rw [hw, count_hands_split] at h3j
      show c.processed.count j + (hands (pre ++ _ :: post)).count j ≤ (c.claims ++ [i]).count j
      rw [count_hands_split]
      simp [Worker.hand, List.count_append, List.count_cons] at h3j ⊢
      by_cases hj : i = j <;> simp [hj] at h3j ⊢ <;> omega
    · have hr := alive_old h5
      exact alive_update h5 ⟨hr, by simp⟩
  | taskDone pre post r i hw =>
    rw [hw] at h2 h5
    refine ⟨h1, ?_, ?_, ?_, ?_⟩
    · show c.unfinished - 1 = c.queue.length + countGot (pre ++ _ :: post)
      rw [countGot_split] at h2 ⊢
      simp [isGot] at h2 ⊢
      omega
    · intro j
      have h3j := h3 j
      rw [hw, count_hands_split] at h3j
      rw [count_hands_split]
      simp [Worker.hand] at h3j ⊢
      omega
    · intro hm
      have := h4 hm
      show c.unfinished - 1 = 0
      omega
    · have hr := alive_old h5
      exact alive_update h5 ⟨hr, by simp⟩
  | procOk pre post r i hw ho =>
    rw [hw] at h2 h5
    refine ⟨h1, ?_, ?_, h4, ?_⟩
    · rw [countGot_split] at h2 ⊢
      simp [isGot] at h2 ⊢
      omega
    · intro j
      have h3j := h3 j
      rw [hw, count_hands_split] at h3j
      show (c.processed ++ [i]).count j + (hands (pre ++ _ :: post)).count j ≤ c.claims.count j
      rw [count_hands_split]
      simp [Worker.hand, List.count_append, List.count_cons] at h3j ⊢
      by_cases hj : i = j <;> simp [hj] at h3j ⊢ <;> omega
    · have hr := alive_old h5
      exact alive_update h5 ⟨hr, by simp⟩
  | procReport pre post r i hw ho =>
    rw [hw] at h2 h5
    refine ⟨h1, ?_, ?_, h4, ?_⟩
    · rw [countGot_split] at h2 ⊢
      simp [isGot] at h2 ⊢
      omega
    · intro j
      have h3j := h3 j
      rw [hw, count_hands_split] at h3j
      show (c.processed ++ [i]).count j + (hands (pre ++ _ :: post)).count j ≤ c.claims.count j
      rw [count_hands_split]
      simp [Worker.hand, List.count_append, List.count_cons] at h3j ⊢
      by_cases hj : i = j <;> simp [hj] at h3j ⊢ <;> omega
    · have hr := alive_old h5
      exact alive_update h5 ⟨hr, by simp⟩
  | procRaise pre post r i hw ho =>
    rw [hw] at h2 h5
    refine ⟨h1, ?_, ?_, h4, ?_⟩
    · rw [countGot_split] at h2 ⊢
      simp [isGot] at h2 ⊢
      omega
    · intro j
      have h3j := h3 j
      rw [hw, count_hands_split] at h3j
      rw [count_hands_split]
      simp [Worker.hand] at h3j ⊢
      omega
    · have hr := alive_old h5
      exact alive_update h5 ⟨hr, by simp⟩
  | mainRet hm hu =>
    exact ⟨h1, h2, h3, fun _ => hu, h5⟩

theorem poolInv_reachable {out : Int → POutcome} {nthreads : Nat} {start stop : Int} {c : Config}
    (h : Reachable out (download_xkcd_threaded nthreads start stop) c) :
    PoolInv (pyRange start stop) c := by
  induction h with
  | refl => exact inv_init nthreads start stop
  | tail _ hstep ih => exact poolInv_step ih hstep

/-! ## Facts about the enqueued range -/

theorem pyRange_nodup (start stop : Int) : (pyRange start stop).Nodup := by
  unfold pyRange
  refine List.Nodup.map ?_ (List.nodup_range _)
  intro a b hab
  have hab2 : start + (a : Int) = start + (b : Int) := hab
  omega

theorem pyRange_eq_nil {start stop : Int} (h : stop ≤ start) : pyRange start stop = [] := by
  unfold pyRange
  rw [Int.toNat_of_nonpos (by omega)]
  rfl

/-! ## Derived safety properties -/

/-- No worker of `c` has died from an escaped exception. -/
def NoDead (c : Config) : Prop := ∀ w ∈ c.workers, w.status ≠ WStatus.dead

theorem noDead_update {pre post : List Worker} {wOld wNew : Worker}
    (h : ∀ w ∈ pre ++ wOld :: post, w.status ≠ WStatus.dead)
    (hNew : wNew.status ≠ WStatus.dead) :
    ∀ w ∈ pre ++ wNew :: post, w.status ≠ WStatus.dead := by
  intro w hw
  simp only [List.mem_append, List.mem_cons] at hw
  rcases hw with h1 | h1 | h1
  · exact h w (by simp [h1])
  · subst h1; exact hNew
  · exact h w (by simp [h1])

theorem noDead_step {out : Int → POutcome} {c c' : Config}
    (hout : ∀ i, out i ≠ POutcome.raise)
    (hnd : NoDead c) (hs : Step out c c') : NoDead c' := by
  cases hs with
  | outerCont pre post hw =>
    rw [NoDead, hw] at hnd
    exact noDead_update hnd (by simp)
  | outerStop pre post hw =>
    rw [NoDead, hw] at hnd
    exact noDead_update hnd (by simp)
  | innerEmpty pre post r hw hq =>
    rw [NoDead, hw] at hnd
    exact noDead_update hnd (by simp)
  | innerNonempty pre post r hw hq =>
    rw [NoDead, hw] at hnd
    exact noDead_update hnd (by simp)
  | getOk pre post r i rest hw hq =>
    rw [NoDead, hw] at hnd
    exact noDead_update hnd (by simp)
  | taskDone pre post r i hw =>
    rw [NoDead, hw] at hnd
    exact noDead_update hnd (by simp)
  | procOk pre post r i hw ho =>
    rw [NoDead, hw] at hnd
    exact noDead_update hnd (by simp)
  | procReport pre post r i hw ho =>
    rw [NoDead, hw] at hnd
    exact noDead_update hnd (by simp)
  | procRaise pre post r i hw ho =>
    exact absurd ho (hout i)
  | mainRet hm hu =>
    exact hnd

theorem noDead_reachable {out : Int → POutcome} {c₀ c : Config}
    (hout : ∀ i, out i ≠ POutcome.raise)
    (hnd : NoDead c₀) (h : Relation.ReflTransGen (Step out) c₀ c) : NoDead c := by
  induction h with
  | refl => exact hnd
  | tail _ hstep ih => exact noDead_step hout ih hstep

theorem noDead_init (nthreads : Nat) (start stop : Int) :
    NoDead (download_xkcd_threaded nthreads start stop) := by
  intro w hw
  have := List.eq_of_mem_replicate hw
  subst this
  simp

/-- In a stuck configuration nothing further ever happens. -/
theorem stuck_reach {out : Int → POutcome} {c₀ c : Config}
    (hstuck : Stuck out c₀) (h : Relation.ReflTransGen (Step out) c₀ c) : c = c₀ := by
  rcases h.cases_head with h1 | ⟨b, hb, -⟩
  · exact h1.symm
  · exact absurd hb (hstuck b)

/-! ## A completing schedule

When no item makes `process` raise, a full completion is reachable: one
worker can drain the whole queue, every item is processed, every failing
item is reported, and `q.join()` returns. -/

/-- The items of `l` whose processing prints a failure report. -/
def reportedOf (out : Int → POutcome) (l : List Int) : List Int :=
  l.filter (fun i => out i == POutcome.report)

theorem drain (out : Int → POutcome) (hout : ∀ i, out i ≠ POutcome.raise)
    (rest : List Worker) :
    ∀ (remaining cl pr rp : List Int),
      Relation.ReflTransGen (Step out)
        { queue := remaining, unfinished := remaining.length,
          workers := { status := WStatus.inner, running := true } :: rest,
          mainReturned := false, claims := cl, processed := pr, reported := rp }
        { queue := [], unfinished := 0,
          workers := { status := WStatus.inner, running := true } :: rest,
          mainReturned := false, claims := cl ++ remaining, processed := pr ++ remaining,
          reported := rp ++ reportedOf out remaining } := by
  intro remaining
  induction remaining with
  | nil =>
    intro cl pr rp
    simp only [reportedOf, List.filter_nil, List.append_nil, List.length_nil]
    exact Relation.ReflTransGen.refl
  | cons i rem ih =>
    intro cl pr rp
    refine Relation.ReflTransGen.head (Step.innerNonempty _ [] rest true rfl (by simp)) ?_
    refine Relation.ReflTransGen.head (Step.getOk _ [] rest true i rem rfl rfl) ?_
    refine Relation.ReflTransGen.head (Step.taskDone _ [] rest true i rfl) ?_
    cases h : out i with
    | ok =>
      refine Relation.ReflTransGen.head (Step.procOk _ [] rest true i rfl h) ?_
      have hrec := ih (cl ++ [i]) (pr ++ [i]) rp
      simpa [reportedOf, List.filter_cons, h] using hrec
    | report =>
      refine Relation.ReflTransGen.head (Step.procReport _ [] rest true i rfl h) ?_
      have hrec := ih (cl ++ [i]) (pr ++ [i]) (rp ++ [i])
      simpa [reportedOf, List.filter_cons, h] using hrec
    | raise => exact absurd h (hout i)

theorem pool_completes (out : Int → POutcome) (hout : ∀ i, out i ≠ POutcome.raise)
    (m : Nat) (start stop : Int) :
    ∃ c, Reachable out (download_xkcd_threaded (m + 1) start stop) c ∧
      c.mainReturned = true ∧ c.processed = pyRange start stop ∧
      c.reported = reportedOf out (pyRange start stop) := by
  refine ⟨{ queue := [], unfinished := 0,
            workers := { status := WStatus.inner, running := true } ::
              List.replicate m { status := WStatus.outer, running := true },
            mainReturned := true, claims := pyRange start stop,
            processed := pyRange start stop,
            reported := reportedOf out (pyRange start stop) }, ?_, rfl, rfl, rfl⟩
  have hd := drain out hout (List.replicate m { status := WStatus.outer, running := true })
      (pyRange start stop) [] [] []
  simp only [List.nil_append] at hd
  refine Relation.ReflTransGen.head (Step.outerCont _ [] _ rfl) ?_
  exact hd.trans (Relation.ReflTransGen.single (Step.mainRet _ rfl rfl))

/-! ## Concrete executions -/

/-- Every item downloads successfully. -/
def outOk : Int → POutcome := fun _ => POutcome.ok

/-- Processing item 0 raises an exception; every other item succeeds. -/
def outR0 : Int → POutcome := fun i => if i = 0 then POutcome.raise else POutcome.ok

/-- A state of `download_xkcd_threaded(1, 0, 1)` in which `q.join()` has
returned while the single worker is still processing the single item:
the item was claimed and `task_done` was called before processing. -/
def cRet : Config :=
  { queue := [], unfinished := 0,
    workers := [{ status := WStatus.processing 0, running := true }],
    mainReturned := true, claims := [0], processed := [], reported := [] }

theorem reach_cRet : Reachable outOk (download_xkcd_threaded 1 0 1) cRet := by
  have h0 : download_xkcd_threaded 1 0 1 =
      { queue := [0], unfinished := 1,
        workers := [{ status := WStatus.outer, running := true }],
        mainReturned := false, claims := [], processed := [], reported := [] } := by decide
  rw [Reachable, h0]
  refine Relation.ReflTransGen.head (Step.outerCont _ [] [] rfl) ?_
  refine Relation.ReflTransGen.head (Step.innerNonempty _ [] [] true rfl (by simp)) ?_
  refine Relation.ReflTransGen.head (Step.getOk _ [] [] true 0 [] rfl rfl) ?_
  refine Relation.ReflTransGen.head (Step.taskDone _ [] [] true 0 rfl) ?_
  exact Relation.ReflTransGen.single (Step.mainRet _ rfl rfl)

/-- The state of `download_xkcd_threaded(1, 0, 2)` after the single worker
claimed item 0, called `task_done`, and died of an exception raised while
processing item 0.  Item 1 is still queued and no thread can ever run
again. -/
def s3dead : Config :=
  { queue := [1], unfinished := 1,
    workers := [{ status := WStatus.dead, running := true }],
    mainReturned := false, claims := [0], processed := [], reported := [] }

theorem reach_s3dead : Reachable outR0 (download_xkcd_threaded 1 0 2) s3dead := by
  have h0 : download_xkcd_threaded 1 0 2 =
      { queue := [0, 1], unfinished := 2,
        workers := [{ status := WStatus.outer, running := true }],
        mainReturned := false, claims := [], processed := [], reported := [] } := by decide
  rw [Reachable, h0]
  refine Relation.ReflTransGen.head (Step.outerCont _ [] [] rfl) ?_
  refine Relation.ReflTransGen.head (Step.innerNonempty _ [] [] true rfl (by simp)) ?_
  refine Relation.ReflTransGen.head (Step.getOk _ [] [] true 0 [1] rfl rfl) ?_
  refine Relation.ReflTransGen.head (Step.taskDone _ [] [] true 0 rfl) ?_
  exact Relation.ReflTransGen.single (Step.procRaise _ [] [] true 0 rfl (by decide))

theorem singleton_worker_split {x w : Worker} {pre post : List Worker}
    (h : [x] = pre ++ w :: post) : x = w := by
  cases pre with
  | nil => simp_all
  | cons a l => simp_all

theorem nil_worker_split {w : Worker} {pre post : List Worker}
    (h : ([] : List Worker) = pre ++ w :: post) : False := by
  cases pre <;> simp_all

theorem stuck_s3dead : Stuck outR0 s3dead := by
  intro c' h
  cases h with
  | outerCont pre post hw =>
    have := singleton_worker_split hw
    simp at this
  | outerStop pre post hw =>
    have := singleton_worker_split hw
    simp at this
  | innerEmpty pre post r hw hq =>
    have := singleton_worker_split hw
    simp at this
  | innerNonempty pre post r hw hq =>
    have := singleton_worker_split hw
    simp at this
  | getOk pre post r i rest hw hq =>
    have := singleton_worker_split hw
    simp at this
  | taskDone pre post r i hw =>
    have := singleton_worker_split hw
    simp at this
  | procOk pre post r i hw ho =>
    have := singleton_worker_split hw
    simp at this
  | procReport pre post r i hw ho =>
    have := singleton_worker_split hw
    simp at this
  | procRaise pre post r i hw ho =>
    have := singleton_worker_split hw
    simp at this
  | mainRet hm hu => exact absurd hu (by decide)

theorem stuck_zero_workers (out : Int → POutcome) : Stuck out (download_xkcd_threaded 0 0 1) := by
  intro c' h
  cases h with
  | outerCont pre post hw => exact nil_worker_split hw
  | outerStop pre post hw => exact nil_worker_split hw
  | innerEmpty pre post r hw hq => exact nil_worker_split hw
  | innerNonempty pre post r hw hq => exact nil_worker_split hw
  | getOk pre post r i rest hw hq => exact nil_worker_split hw
  | taskDone pre post r i hw => exact nil_worker_split hw
  | procOk pre post r i hw ho => exact nil_worker_split hw
  | procReport pre post r i hw ho => exact nil_worker_split hw
  | procRaise pre post r i hw ho => exact nil_worker_split hw
  | mainRet hm hu => exact absurd hu (by decide)

/-! ## Claim theorems for the threaded downloader -/

/-- Workers that are all still running and not terminated. -/
def AllRunning (c : Config) : Prop :=
  ∀ w ∈ c.workers, w.running = true ∧ w.status ≠ WStatus.terminated

/-- Claim C1, counterexample: with one item and one worker,
`download_xkcd_threaded` can return while zero items have been processed,
because `download_worker` calls `q.task_done()` before processing the item,
so `q.join()` unblocks as soon as every item has been claimed.  In the
reachable state `cRet` the call has returned but the processed count is 0,
not 1. -/
theorem c1_counterexample :
    Reachable outOk (download_xkcd_threaded 1 0 1) cRet ∧ cRet.mainReturned = true ∧
    cRet.processed.length = 0 ∧ (pyRange 0 1).length = 1 :=
  ⟨reach_cRet, rfl, rfl, by decide⟩

/-- Claim C1, amended: in every reachable state of
`download_xkcd_threaded(n, start, stop)` the delivered items are free of
duplicates, each item is processed at most once and only after being
delivered, and once the call has returned every enqueued item has been
claimed by exactly one `q.get()`; items may however still be unprocessed at
the moment the call returns. -/
theorem c1_amended_claims_exactly_once (n : Nat) (start stop : Int)
    (out : Int → POutcome) (c : Config)
    (h : Reachable out (download_xkcd_threaded n start stop) c) :
    c.claims.Nodup ∧ c.processed.Nodup ∧
    (∀ j, j ∈ c.processed → j ∈ c.claims) ∧
    (c.mainReturned = true → c.claims = pyRange start stop) := by
  obtain ⟨h1, h2, h3, h4, h5⟩ := poolInv_reachable h
  have hnd : (c.claims ++ c.queue).Nodup := h1 ▸ pyRange_nodup start stop
  have hclaims : c.claims.Nodup := List.Nodup.sublist (List.sublist_append_left _ _) hnd
  have hcount : ∀ j, c.claims.count j ≤ 1 := List.nodup_iff_count_le_one.mp hclaims
  refine ⟨hclaims, ?_, ?_, ?_⟩
  · refine List.nodup_iff_count_le_one.mpr ?_
    intro j
    have := h3 j
    have := hcount j
    omega
  · intro j hj
    have hpos : 0 < c.processed.count j := List.count_pos_iff.mpr hj
    have := h3 j
    have : 0 < c.claims.count j := by omega
    exact List.count_pos_iff.mp this
  · intro hret
    have hu := h4 hret
    rw [hu] at h2
    have hq : c.queue = [] := List.length_eq_zero.mp (by omega)
    rw [hq, List.append_nil] at h1
    exact h1

/-- Claim C1 witness: the amended statement evaluated on the concrete
execution reaching `cRet`. -/
theorem c1_witness :
    cRet.claims.Nodup ∧ cRet.processed.Nodup ∧
    (∀ j, j ∈ cRet.processed → j ∈ cRet.claims) ∧
    (cRet.mainReturned = true → cRet.claims = pyRange 0 1) :=
  c1_amended_claims_exactly_once 1 0 1 outOk cRet reach_cRet

/-- Claim C2, counterexample: `download_xkcd_threaded(1, 0, 1)` can reach a
state in which `q.join()` has returned while the worker is still processing
its claimed item (and the worker is not terminated), so the call does not
wait for processing to complete nor for workers to terminate. -/
theorem c2_counterexample :
    Reachable outOk (download_xkcd_threaded 1 0 1) cRet ∧ cRet.mainReturned = true ∧
    cRet.workers = [{ status := WStatus.processing 0, running := true }] ∧
    cRet.processed = [] :=
  ⟨reach_cRet, rfl, rfl, rfl⟩

/-- Claim C2, amended: the call returns only after every enqueued item has
been claimed and marked done, in which case the queue is empty and the
unfinished-task count is zero; but it can return while claimed items are
still being processed, and the workers are never stopped: every worker
still has `running = True` and none has terminated. -/
theorem c2_amended_return_condition (n : Nat) (start stop : Int)
    (out : Int → POutcome) (c : Config)
    (h : Reachable out (download_xkcd_threaded n start stop) c)
    (hret : c.mainReturned = true) :
    c.queue = [] ∧ c.unfinished = 0 ∧ c.claims = pyRange start stop ∧ AllRunning c := by
  obtain ⟨h1, h2, h3, h4, h5⟩ := poolInv_reachable h
  have hu := h4 hret
  have hq : c.queue = [] := by
    rw [hu] at h2
    exact List.length_eq_zero.mp (by omega)
  refine ⟨hq, hu, ?_, h5⟩
  rw [hq, List.append_nil] at h1
  exact h1

/-- Claim C2 witness: the amended statement evaluated on the concrete
execution reaching `cRet`. -/
theorem c2_witness :
    cRet.queue = [] ∧ cRet.unfinished = 0 ∧ cRet.claims = pyRange 0 1 ∧ AllRunning cRet :=
  c2_amended_return_condition 1 0 1 outOk cRet reach_cRet rfl

/-- Claim C3, counterexample: with one worker and two items, a `process`
that raises on item 0 kills the only worker after it claimed item 0 and
called `task_done`.  The reached state is stuck: item 1 stays queued
forever, is never processed, and the call never returns. -/
theorem c3_counterexample :
    Reachable outR0 (download_xkcd_threaded 1 0 2) s3dead ∧
    Stuck outR0 s3dead ∧ s3dead.mainReturned = false ∧
    s3dead.processed = [] ∧ s3dead.queue = [1] ∧ outR0 0 = POutcome.raise :=
  ⟨reach_s3dead, stuck_s3dead, rfl, rfl, rfl, by decide⟩

/-- Claim C3, amended: a failure that is reported without raising (the
`print` branch of `download_worker`) is confined: no worker ever dies, and
a complete execution is still reachable in which every item (the failing
one included) is processed and the failing items are exactly the reported
ones; a failure that raises, by contrast, kills the worker handling it. -/
theorem c3_amended_confined (out : Int → POutcome) (hout : ∀ i, out i ≠ POutcome.raise)
    (n : Nat) (hn : 1 ≤ n) (start stop : Int) :
    (∀ c, Reachable out (download_xkcd_threaded n start stop) c → NoDead c) ∧
    (∃ c, Reachable out (download_xkcd_threaded n start stop) c ∧
      c.mainReturned = true ∧ c.processed = pyRange start stop ∧
      c.reported = reportedOf out (pyRange start stop)) := by
  constructor
  · intro c hc
    exact noDead_reachable hout (noDead_init n start stop) hc
  · obtain ⟨m, rfl⟩ : ∃ m, n = m + 1 := ⟨n - 1, by omega⟩
    exact pool_completes out hout m start stop

/-- Processing item 0 prints a failure report; every other item succeeds. -/
def out3 : Int → POutcome := fun i => if i = 0 then POutcome.report else POutcome.ok

/-- Claim C3 witness: the amended statement evaluated with one worker, two
items, and a reported failure on item 0. -/
theorem c3_witness :
    (∀ c, Reachable out3 (download_xkcd_threaded 1 0 2) c → NoDead c) ∧
    (∃ c, Reachable out3 (download_xkcd_threaded 1 0 2) c ∧
      c.mainReturned = true ∧ c.processed = pyRange 0 2 ∧
      c.reported = reportedOf out3 (pyRange 0 2)) :=
  c3_amended_confined out3
    (fun i => by unfold out3; split <;> simp) 1 (by decide) 0 2

/-- Claim C4: in every interleaving of any number of workers over the
shared queue, `q.get()` never delivers the same item twice: the delivery
log of every reachable configuration has no duplicates. -/
theorem c4_no_duplicate_delivery (n : Nat) (start stop : Int)
    (out : Int → POutcome) (c : Config)
    (h : Reachable out (download_xkcd_threaded n start stop) c) :
    c.claims.Nodup := by
  obtain ⟨h1, -, -, -, -⟩ := poolInv_reachable h
  have hnd : (c.claims ++ c.queue).Nodup := h1 ▸ pyRange_nodup start stop
  exact List.Nodup.sublist (List.sublist_append_left _ _) hnd

/-- Claim C4 witness: the delivery log of the concrete reachable state
`cRet` has no duplicates. -/
theorem c4_witness : cRet.claims.Nodup :=
  c4_no_duplicate_delivery 1 0 1 outOk cRet reach_cRet

/-- Claim C6, counterexample: `download_xkcd_threaded(0, 0, 1)` performs no
validation and does not fail: it starts no worker, processes nothing, and
blocks forever in `q.join()` (its initial state is stuck with the call not
returned). -/
theorem c6_counterexample :
    Stuck outOk (download_xkcd_threaded 0 0 1) ∧
    (download_xkcd_threaded 0 0 1).mainReturned = false ∧
    (download_xkcd_threaded 0 0 1).workers = [] ∧
    (download_xkcd_threaded 0 0 1).queue = [0] :=
  ⟨stuck_zero_workers outOk, rfl, by decide, by decide⟩

/-- Claim C6, amended: the function has no configuration validation.  With
a negative or empty item count (`stop ≤ start`) the queue is empty and the
call returns immediately and normally, for any worker count; with zero
workers and a nonempty queue it starts no worker, raises nothing, and
blocks forever in `q.join()`. -/
theorem c6_amended_no_validation (n : Nat) (start stop : Int) (h : stop ≤ start)
    (out : Int → POutcome) :
    (download_xkcd_threaded n start stop).queue = [] ∧
    Step out (download_xkcd_threaded n start stop)
      { download_xkcd_threaded n start stop with mainReturned := true } ∧
    Stuck out (download_xkcd_threaded 0 0 1) ∧
    (download_xkcd_threaded 0 0 1).mainReturned = false := by
  have hq : pyRange start stop = [] := pyRange_eq_nil h
  refine ⟨hq, ?_, stuck_zero_workers out, rfl⟩
  refine Step.mainRet _ rfl ?_
  show (pyRange start stop).length = 0
  simp [hq]

/-- Claim C6 witness: the amended statement evaluated at four workers and
the negative item count `range(3, 1)`. -/
theorem c6_witness :
    (download_xkcd_threaded 4 3 1).queue = [] ∧
    Step outOk (download_xkcd_threaded 4 3 1)
      { download_xkcd_threaded 4 3 1 with mainReturned := true } ∧
    Stuck outOk (download_xkcd_threaded 0 0 1) ∧
    (download_xkcd_threaded 0 0 1).mainReturned = false :=
  c6_amended_no_validation 4 3 1 (by decide) outOk

/-! ## The sequential downloader -/

/-- Abstraction of the HTTP response for one comic page, as consumed by
the source: the group matched by the image-URL regex search (when any),
and whether a search for "Not Found" in the body matches. -/
structure Page where
  comicUrl : Option String
  notFound : Bool
deriving DecidableEq, Repr

/-- Python `s[-4:]`, the last four characters of a string. -/
def lastFour (s : String) : String := ⟨s.data.drop (s.data.length - 4)⟩

/-- Observable result of `download_xkcd`: the page GET requests issued (in
order), the files written, and the final value of the `content` flag. -/
structure DlResult where
  requests : List Int
  files : List (Int × String)
  content : Bool
deriving DecidableEq, Repr

/-- One iteration of the loop body of `download_xkcd`: issue the page GET,
search for the image URL; when found, fetch the image and write the file;
otherwise set `content = False` exactly when the page contains "Not Found"
and the index is not 404.  The loop body never consults `content`. -/
def download_step (fetch : Int → Page) (s : DlResult) (i : Int) : DlResult :=
  match (fetch i).comicUrl with
  | some g =>
      { s with requests := s.requests ++ [i],
               files := s.files ++ [(i, "xkcd_" ++ toString i ++ lastFour ("http://imgs.xkcd.com" ++ g))] }
  | none =>
      if (fetch i).notFound ∧ i ≠ 404 then
        { s with requests := s.requests ++ [i], content := false }
      else { s with requests := s.requests ++ [i] }

/-- The sequential `download_xkcd(start, stop)`, parameterised by the pages
the network returns: a plain fold of the loop body over `range(start, stop)`. -/
def download_xkcd (fetch : Int → Page) (start stop : Int) : DlResult :=
  (pyRange start stop).foldl (download_step fetch)
    { requests := [], files := [], content := true }

theorem download_step_requests (fetch : Int → Page) (s : DlResult) (i : Int) :
    (download_step fetch s i).requests = s.requests ++ [i] := by
  unfold download_step
  split
  · rfl
  · split <;> rfl

theorem download_xkcd_requests_aux (fetch : Int → Page) (l : List Int) (s : DlResult) :
    (l.foldl (download_step fetch) s).requests = s.requests ++ l := by
  induction l generalizing s with
  | nil => simp
  | cons i rem ih =>
    rw [List.foldl_cons, ih, download_step_requests]
    simp

/-- Pages for which item 0 is a "Not Found" page and all other items carry
a comic image. -/
def c7fetch : Int → Page := fun i =>
  if i = 0 then { comicUrl := none, notFound := true }
  else { comicUrl := some "/comics/a.png", notFound := false }

/-- Claim C7: the "Not Found" response does not stop the loop.  The
`content` flag is set to `False` but never read, so `download_xkcd` issues
exactly one page GET per index of `range(start, stop)` no matter what the
network returns; in particular with a "Not Found" page at item 0 of
`range(0, 3)` the loop still issues all 3 requests, never strictly fewer. -/
theorem c7_no_soft_stop :
    (∀ (fetch : Int → Page) (start stop : Int),
      (download_xkcd fetch start stop).requests = pyRange start stop) ∧
    (download_xkcd c7fetch 0 3).requests = [0, 1, 2] ∧
    (download_xkcd c7fetch 0 3).content = false ∧
    ¬ (download_xkcd c7fetch 0 3).requests.length < 3 := by
  have hall : ∀ (fetch : Int → Page) (start stop : Int),
      (download_xkcd fetch start stop).requests = pyRange start stop := by
    intro fetch start stop
    unfold download_xkcd
    rw [download_xkcd_requests_aux]
    rfl
  refine ⟨hall, ?_, by decide, ?_⟩
  · rw [hall]
    decide
  · rw [hall]
    decide

/-! ## The per-item behaviour of the threaded worker -/

/-- Result of handling one item in `download_worker`: a file written, a
printed failure message, or nothing at all. -/
inductive ItemResult where
  | saved (file : String)
  | failed (i : Int)
  | silent
deriving DecidableEq, Repr

/-- Body of one iteration of `download_worker` after `q.task_done()`: fetch
the page, search for a comic image URL; when found, write the image file;
otherwise print a failure message exactly when the page contains
"Not Found" and the item is not 404. -/
def worker_handle_item (page : Page) (i : Int) : ItemResult :=
  match page.comicUrl with
  | some g =>
      ItemResult.saved ("xkcd_" ++ toString i ++ lastFour ("http://imgs.xkcd.com" ++ g))
  | none => if page.notFound ∧ i ≠ 404 then ItemResult.failed i else ItemResult.silent

/-- Outcome class of one handled item for the worker-pool model: printing a
failure is a report, everything else is a normal return; the handler body
raises nothing by itself. -/
def outcomeOfResult : ItemResult → POutcome
  | ItemResult.failed _ => POutcome.report
  | _ => POutcome.ok

/-- Claim C9: when the fetched page contains "Not Found" and no comic image
URL, the worker prints a failure for the item exactly when the item is not
404; for item 404 it does nothing (no failure printed, no file written).
In both cases the handler returns normally, so the worker goes on to the
next item. -/
theorem c9_notfound_handling (page : Page) (i : Int)
    (h1 : page.comicUrl = none) (h2 : page.notFound = true) :
    worker_handle_item page i
      = (if i = 404 then ItemResult.silent else ItemResult.failed i) ∧
    outcomeOfResult (worker_handle_item page i) ≠ POutcome.raise := by
  constructor
  · unfold worker_handle_item
    rw [h1]
    by_cases h : i = 404 <;> simp [h, h2]
  · unfold worker_handle_item
    rw [h1]
    by_cases hc : page.notFound = true ∧ ¬ i = 404
    · rw [if_pos hc]
      simp [outcomeOfResult]
    · rw [if_neg hc]
      simp [outcomeOfResult]

/-- Claim C9 witness: on a "Not Found" page, item 404 is silently skipped
while item 5 produces a printed failure. -/
theorem c9_witness :
    worker_handle_item { comicUrl := none, notFound := true } 404 = ItemResult.silent ∧
    worker_handle_item { comicUrl := none, notFound := true } 5 = ItemResult.failed 5 := by
  constructor
  · simpa using (c9_notfound_handling { comicUrl := none, notFound := true } 404 rfl rfl).1
  · simpa using (c9_notfound_handling { comicUrl := none, notFound := true } 5 rfl rfl).1

/-! ## The message-passing Monte Carlo codes -/

/-- Per-process sample count of the message-passing Monte Carlo codes:
every rank computes `n_samples // size`. -/
def n_samples_per_task (n_samples size : Nat) : Nat := n_samples / size

/-- The per-process sample counts, one entry per rank. -/
def perTaskCounts (n_samples size : Nat) : List Nat :=
  List.replicate size (n_samples_per_task n_samples size)

/-- The denominator `draws_sum = n_samples_per_task * size` computed by
every rank of `monte_carlo_area_reduce`. -/
def draws_sum (n_samples size : Nat) : Nat := n_samples_per_task n_samples size * size

/-- The manual combine of `monte_carlo_area_sendrcv`: rank 0 starts from
its own count and adds each received count in turn. -/
def sendrcv_combine (own : Nat) (received : List Nat) : Nat :=
  received.foldl (fun acc t => acc + t) own

/-- Modelled from the spec: combine via reduce with the sum operation, the
external message-passing collaborator used by `monte_carlo_area_reduce`; it
delivers the combined value to the root rank and nothing (`None`) to every
other rank. -/
def comm_reduce_sum (counts : List Nat) (rank : Nat) : Option Nat :=
  if rank = 0 then some counts.sum else none

/-- The combined count each rank holds after the reduce, with the source
replacing `None` by 0. -/
def reduce_result (counts : List Nat) (rank : Nat) : Nat :=
  (comm_reduce_sum counts rank).getD 0

theorem sendrcv_combine_eq_sum (own : Nat) (received : List Nat) :
    sendrcv_combine own received = own + received.sum := by
  induction received generalizing own with
  | nil => simp [sendrcv_combine]
  | cons t ts ih =>
    have h := ih (own + t)
    simp only [sendrcv_combine, List.foldl_cons] at h ⊢
    rw [h, List.sum_cons]
    omega

/-- Claim C8, counterexample: with 10 requested samples split over 3
processes, each rank draws `10 // 3 = 3` samples, so the per-process
sample counts sum to 9, not to the requested 10. -/
theorem c8_counterexample :
    (perTaskCounts 10 3).sum = 9 ∧ (perTaskCounts 10 3).sum ≠ 10 := by
  decide

/-- Claim C8, amended: every rank draws `n_samples // size` samples, so the
per-process counts sum to `size * (n_samples / size)`, which equals the
requested `n_samples` exactly when `size` divides `n_samples` (the code is
self-consistent: it divides by `draws_sum`, the same total); the combined
in-circle count equals the sum of the per-process counts, both in the
manual send/receive combine and, on the root rank, in the reduce; non-root
ranks receive `None` from the reduce and print 0. -/
theorem c8_amended_split_and_reduce (n size : Nat) (counts : List Nat)
    (own : Nat) (others : List Nat) :
    (perTaskCounts n size).sum = size * (n / size) ∧
    ((perTaskCounts n size).sum = n ↔ size ∣ n) ∧
    draws_sum n size = size * (n / size) ∧
    sendrcv_combine own others = own + others.sum ∧
    reduce_result counts 0 = counts.sum ∧
    (∀ r, r ≠ 0 → reduce_result counts r = 0) := by
  have hsum : (perTaskCounts n size).sum = size * (n / size) := by
    simp [perTaskCounts, n_samples_per_task, List.sum_replicate, smul_eq_mul]
  refine ⟨hsum, ?_, ?_, sendrcv_combine_eq_sum own others, ?_, ?_⟩
  · rw [hsum]
    constructor
    · intro h
      exact ⟨n / size, h.symm⟩
    · intro h
      exact Nat.mul_div_cancel' h
  · simp [draws_sum, n_samples_per_task, Nat.mul_comm]
  · simp [reduce_result, comm_reduce_sum]
  · intro r hr
    simp [reduce_result, comm_reduce_sum, hr]

/-! ## The model-fitting notebook: prior, likelihood, posterior

Real scalars are embedded as exact reals.  `np.sqrt` returns a numpy
float64, so the denominator of the prior is a numpy float64 and the
division follows numpy semantics under the default error state: dividing a
positive number by zero emits a RuntimeWarning and returns positive
infinity; no exception is raised. -/

/-- Value returned by the probability functions: negative infinity
(`-np.inf`), positive infinity (`np.inf`), or a finite real. -/
inductive PyVal where
  | ninf
  | pinf
  | fin (r : ℝ)

/-- Python function `linear_func(x, m, b) = m*x + b` from the notebook. -/
noncomputable def linear_func (x m b : ℝ) : ℝ := m * x + b

/-- Python function `lnprior(theta)` for `theta = (b, m, sigma)`: return
`-np.inf` when `sigma < 0`, otherwise evaluate
`1/(sigma*np.sqrt(1+m**2)**3)`.  The denominator is a numpy float64, zero
exactly when `sigma = 0` (the square root factor is positive), and numpy
returns positive infinity for one divided by zero instead of raising.
Note that the returned value is the prior density itself, with no
logarithm taken. -/
noncomputable def lnprior (b m sigma : ℝ) : PyVal :=
  if sigma < 0 then PyVal.ninf
  else if sigma * Real.sqrt (1 + m ^ 2) ^ 3 = 0 then PyVal.pinf
  else PyVal.fin (1 / (sigma * Real.sqrt (1 + m ^ 2) ^ 3))

/-- Python function `lnlike(theta, x, y)`: minus the sum over the data of
`2*np.log(sigma) + ((y - y_pred)/sigma)**2` with
`y_pred = linear_func(x, m, b)`. -/
noncomputable def lnlike (b m sigma : ℝ) (x y : List ℝ) : ℝ :=
  -(List.zipWith
      (fun xi yi => 2 * Real.log sigma + ((yi - linear_func xi m b) / sigma) ^ 2) x y).sum

/-- Python function `lnprob(theta, x, y)` handed to the ensemble sampler:
evaluate `lnprior`; when the prior value is not finite under `np.isfinite`
(negative or positive infinity) return `-np.inf`; otherwise return the
prior value plus `lnlike`. -/
noncomputable def lnprob (b m sigma : ℝ) (x y : List ℝ) : PyVal :=
  match lnprior b m sigma with
  | PyVal.fin p => PyVal.fin (p + lnlike b m sigma x y)
  | _ => PyVal.ninf

/-- The prior density `1/(sigma*sqrt(1+m^2)^3)` named by the claim. -/
noncomputable def prior_density (b m sigma : ℝ) : ℝ :=
  1 / (sigma * Real.sqrt (1 + m ^ 2) ^ 3)

/-- The log-posterior as the specification words it: the logarithm of the
prior density plus the log-likelihood. -/
noncomputable def lnprob_spec (b m sigma : ℝ) (x y : List ℝ) : ℝ :=
  Real.log (prior_density b m sigma) + lnlike b m sigma x y

theorem sqrt_one_zero_sq : Real.sqrt (1 + (0 : ℝ) ^ 2) = 1 := by
  norm_num

/-- Claim C5: the function handed to the sampler is not the log-posterior.
At `theta = (b, m, sigma) = (0, 0, 1)` with empty data, `lnprob` returns
`1` (it adds the prior density itself, since `lnprior` never takes a
logarithm), while the log-posterior of the claim is
`log(1) + lnlike = 0`, and `1 ≠ 0`. -/
theorem c5_lnprob_adds_prior_density :
    lnprob 0 0 1 [] [] = PyVal.fin 1 ∧
    lnprob_spec 0 0 1 [] [] = 0 ∧ (1 : ℝ) ≠ 0 := by
  have hden : (1 : ℝ) * Real.sqrt (1 + (0 : ℝ) ^ 2) ^ 3 = 1 := by
    rw [sqrt_one_zero_sq]
    norm_num
  have hlike : lnlike 0 0 1 [] [] = 0 := by
    simp [lnlike]
  refine ⟨?_, ?_, one_ne_zero⟩
  · unfold lnprob lnprior
    rw [if_neg (by norm_num), if_neg (by rw [hden]; norm_num), hden, hlike]
    norm_num
  · unfold lnprob_spec prior_density
    rw [hden, hlike]
    norm_num

/-- Claim C10, counterexample: at `theta = (0, 0, 0)` the division by zero
does not raise: `lnprior` returns positive infinity (numpy float64
division by zero) and `lnprob` then returns `-np.inf` through the
`np.isfinite` guard, so at `sigma = 0` the code returns a value instead of
failing. -/
theorem c10_counterexample :
    lnprior 0 0 0 = PyVal.pinf ∧ lnprob 0 0 0 [] [] = PyVal.ninf := by
  have h0 : lnprior 0 0 0 = PyVal.pinf := by
    unfold lnprior
    rw [if_neg (by norm_num), if_pos (zero_mul _)]
  refine ⟨h0, ?_⟩
  unfold lnprob
  rw [h0]

/-- Claim C10, amended: `lnprior` returns `-np.inf` exactly for strictly
negative `sigma`.  At `sigma = 0` the denominator
`sigma*np.sqrt(1+m**2)**3` is a numpy float64 equal to zero, so the
division returns positive infinity (a RuntimeWarning under the default
numpy error state, not an exception), and `lnprob` applied to a parameter
vector with `sigma = 0` therefore returns `-np.inf` through the
`np.isfinite` guard rather than failing. -/
theorem c10_amended_sigma_zero_returns_ninf :
    (∀ b m sigma : ℝ, lnprior b m sigma = PyVal.ninf ↔ sigma < 0) ∧
    (∀ b m : ℝ, lnprior b m 0 = PyVal.pinf) ∧
    (∀ (b m : ℝ) (x y : List ℝ), lnprob b m 0 x y = PyVal.ninf) := by
  have hpinf : ∀ b m : ℝ, lnprior b m 0 = PyVal.pinf := by
    intro b m
    unfold lnprior
    rw [if_neg (by norm_num), if_pos (zero_mul _)]
  refine ⟨?_, hpinf, ?_⟩
  · intro b m sigma
    constructor
    · intro h
      by_contra hneg
      unfold lnprior at h
      rw [if_neg hneg] at h
      split at h <;> simp_all
    · intro h
      unfold lnprior
      rw [if_pos h]
  · intro b m x y
    unfold lnprob
    rw [hpinf b m]
